import Mathlib

/-!
Shallow embedding of the ThreatIntel-GPT analysis core
(`src/threatintel_gpt/correlator.py`, `analyzer.py`, `mitre.py`).

Python strings are modelled as Lean `String`; the character-level
operations Python performs (`str.split`, the `in` substring test,
`str.lower`) are modelled by structural recursion on `List Char` so that
they are executable and kernel-reducible.  Python floats are modelled as
rationals `ℚ`: every constant the code manipulates (0.3, 0.5, 0.6, 0.7,
0.8, 1.0, 5, 30, 50, 100 and products with a confidence in [0,1]) stays
exact in this range, so the rational semantics agrees with the intended
real-number reading of the spec.  Python dictionaries keyed by strings
(`defaultdict(list)`, `TACTIC_MAPPING`) are modelled as association
lists in insertion order, which is exactly the iteration order Python
guarantees.
-/

/-- `startsWithCL needle hay` models Python's check that `hay` begins with
`needle` (character lists). -/
def startsWithCL : List Char → List Char → Bool
  | [], _ => true
  | _ :: _, [] => false
  | a :: as, b :: bs => a == b && startsWithCL as bs

/-- `occursIn needle hay` models Python's substring test `needle in hay`
on character lists: `needle` occurs contiguously somewhere in `hay`. -/
def occursIn (needle : List Char) : List Char → Bool
  | [] => startsWithCL needle []
  | c :: cs => startsWithCL needle (c :: cs) || occursIn needle cs

/-- `splitOnDot s` models Python's `s.split(".")`: the maximal runs of
characters between occurrences of `'.'`, empty runs preserved.  The
result is always non-empty, as in Python. -/
def splitOnDot : List Char → List (List Char)
  | [] => [[]]
  | x :: xs =>
    match splitOnDot xs with
    | [] => [[]]
    | p :: ps => if x = '.' then [] :: p :: ps else (x :: p) :: ps

/-- Lower-casing of a character list, modelling Python's `str.lower()`
(the catalog and the examples are ASCII, where the two agree). -/
def toLowerCL (s : List Char) : List Char :=
  s.map Char.toLower

/-! ## Correlator (`correlator.py`) -/

/-- One entry of `ThreatCorrelator.threat_database`: the dict built in
`add_threat` with keys `ioc`, `type`, `metadata`, `timestamp`.
Metadata is opaque to all the code under study and is modelled as `Nat`;
the timestamp (`datetime.utcnow()`) is modelled as a `Nat` supplied by
the caller. -/
structure ThreatEntry where
  ioc : String
  ty : String
  metadata : Nat
  timestamp : Nat
deriving DecidableEq, Repr

/-- One element of the list returned by `find_related`: the dict with
keys `ioc`, `type`, `similarity`, `relationship`, `metadata`. -/
structure RelatedThreat where
  ioc : String
  ty : String
  similarity : ℚ
  relationship : String
  metadata : Nat
deriving DecidableEq, Repr

/-- `threat_database`, a `defaultdict(list)` keyed by IOC type: an
association list in key-insertion order, each key holding its bucket in
append order. -/
abbrev ThreatDB := List (String × List ThreatEntry)

/-- Appending to `self.threat_database[ioc_type]`: the first bucket with
the given key grows at the end; a missing key is created at the end of
the dict, as `defaultdict` does. -/
def dbAppend (db : ThreatDB) (t : String) (e : ThreatEntry) : ThreatDB :=
  match db with
  | [] => [(t, [e])]
  | (k, es) :: rest =>
    if k = t then (k, es ++ [e]) :: rest else (k, es) :: dbAppend rest t e

/-- `self.threat_database.get(ioc_type, [])`. -/
def dbGet (db : ThreatDB) (t : String) : List ThreatEntry :=
  match db with
  | [] => []
  | (k, es) :: rest => if k = t then es else dbGet rest t

/-- `ThreatCorrelator.add_threat`: builds the entry dict and appends it
to the bucket of its type.  `now` stands for `datetime.utcnow()`. -/
def add_threat (db : ThreatDB) (ioc : String) (ioc_type : String)
    (metadata : Nat) (now : Nat) : ThreatDB :=
  dbAppend db ioc_type ⟨ioc, ioc_type, metadata, now⟩

/-- `ThreatCorrelator._calculate_similarity`.  In the Python source the
`ip` branch wraps the split/compare in `try/except`, but `split`,
slicing and list comparison are total, so the handler is dead code and
the function is total; both the `ip` and `domain` branches fall through
to the final `return 0.3` when their tests fail, while the hash branch
returns directly. -/
def calculate_similarity (ioc1 ioc2 : String) (ioc_type : String) : ℚ :=
  if ioc_type = "ip" then
    if (splitOnDot ioc1.toList).take 3 = (splitOnDot ioc2.toList).take 3 then 0.8
    else if (splitOnDot ioc1.toList).take 2 = (splitOnDot ioc2.toList).take 2 then 0.6
    else 0.3
  else if ioc_type = "domain" then
    if (splitOnDot ioc1.toList).getLastD [] = (splitOnDot ioc2.toList).getLastD [] then 0.6
    else 0.3
  else if ioc_type = "hash_md5" ∨ ioc_type = "hash_sha1" ∨ ioc_type = "hash_sha256" then
    if ioc1 = ioc2 then 1.0 else 0.0
  else 0.3

/-- The same-type loop of `find_related`: entries of the queried type
whose IOC differs from the query and whose similarity exceeds 0.5. -/
def sameTypeResults (db : ThreatDB) (ioc : String) (ioc_type : String) :
    List RelatedThreat :=
  (dbGet db ioc_type).filterMap fun threat =>
    if threat.ioc ≠ ioc then
      if calculate_similarity ioc threat.ioc ioc_type > 0.5 then
        some ⟨threat.ioc, threat.ty, calculate_similarity ioc threat.ioc ioc_type,
              "same_type", threat.metadata⟩
      else none
    else none

/-- `ThreatCorrelator._find_cross_type_correlations`: for an `ip` query,
every stored `domain` entry becomes a `dns_resolution` result with
similarity 0.7 — with no exclusion of the queried value. -/
def find_cross_type_correlations (db : ThreatDB) (ioc : String)
    (ioc_type : String) : List RelatedThreat :=
  if ioc_type = "ip" then
    (dbGet db "domain").map fun dt =>
      ⟨dt.ioc, "domain", 0.7, "dns_resolution", dt.metadata⟩
  else []

/-- The comparison handed to the sort in `find_related`
(`sort(key=similarity, reverse=True)`), as a Boolean relation:
descending similarity. -/
def simDescLe (a b : RelatedThreat) : Bool :=
  decide (b.similarity ≤ a.similarity)

/-- `ThreatCorrelator.find_related`: same-type results, then cross-type
results, sorted by descending similarity with a stable sort (Python's
`list.sort` is stable, and `reverse=True` keeps equal elements in scan
order), truncated to `max_results`. -/
def find_related (db : ThreatDB) (ioc : String) (ioc_type : String)
    (max_results : Nat) : List RelatedThreat :=
  ((sameTypeResults db ioc ioc_type ++
      find_cross_type_correlations db ioc ioc_type).mergeSort
    simDescLe).take max_results

/-- The `total_threats` field of `ThreatCorrelator.get_statistics`: the
sum of the bucket sizes. -/
def total_threats (db : ThreatDB) : Nat :=
  (db.map fun p => p.2.length).sum

/-! ## Analyzer (`analyzer.py`) -/

/-- `ThreatAnalyzer._calculate_threat_score`: `base = 50.0 +
min(technique_count * 5, 30)` (an integer minimum, added to a float),
then `base *= confidence`, then `min(base, 100.0)`. -/
def calculate_threat_score (technique_count : Nat) (confidence : ℚ) : ℚ :=
  min ((50 + (min (technique_count * 5) 30 : ℕ) : ℚ) * confidence) 100

/-- `ThreatAnalyzer._get_severity`: threshold table with inclusive lower
bounds, checked high to low. -/
def get_severity (threat_score : ℚ) : String :=
  if threat_score ≥ 80 then "CRITICAL"
  else if threat_score ≥ 60 then "HIGH"
  else if threat_score ≥ 40 then "MEDIUM"
  else if threat_score ≥ 20 then "LOW"
  else "INFO"

/-! ## MITRE mapper (`mitre.py`) -/

/-- `MITREMapper.TECHNIQUE_KEYWORDS` in declaration order. -/
def TECHNIQUE_KEYWORDS : List (String × List String) :=
  [("T1566", ["phishing", "spearphishing", "email attack"]),
   ("T1059", ["command", "script", "powershell", "cmd", "bash"]),
   ("T1105", ["download", "ingress tool transfer", "file transfer"]),
   ("T1071", ["http", "https", "web protocol", "application layer"]),
   ("T1090", ["proxy", "vpn", "tunnel"]),
   ("T1189", ["drive-by", "watering hole", "compromised website"]),
   ("T1190", ["exploit", "vulnerability", "cve"]),
   ("T1133", ["vpn", "remote access", "external remote services"]),
   ("T1078", ["valid account", "credential", "stolen credentials"]),
   ("T1110", ["brute force", "password spray", "credential stuffing"]),
   ("T1486", ["ransomware", "encryption", "data encrypted"]),
   ("T1485", ["data destruction", "delete", "wipe"]),
   ("T1567", ["exfiltration", "data theft", "upload"]),
   ("T1021", ["rdp", "remote desktop", "remote services"]),
   ("T1003", ["credential dump", "lsass", "mimikatz"])]

/-- `MITREMapper.TACTIC_MAPPING` in declaration order. -/
def TACTIC_MAPPING : List (String × String) :=
  [("T1566", "Initial Access"),
   ("T1059", "Execution"),
   ("T1105", "Command and Control"),
   ("T1071", "Command and Control"),
   ("T1090", "Command and Control"),
   ("T1189", "Initial Access"),
   ("T1190", "Initial Access"),
   ("T1133", "Persistence"),
   ("T1078", "Defense Evasion"),
   ("T1110", "Credential Access"),
   ("T1486", "Impact"),
   ("T1485", "Impact"),
   ("T1567", "Exfiltration"),
   ("T1021", "Lateral Movement"),
   ("T1003", "Credential Access")]

/-- `dict.get` on an association list (first matching key). -/
def getAssoc : List (String × String) → String → Option String
  | [], _ => none
  | (k, v) :: rest, t => if k = t then some v else getAssoc rest t

/-- The body of the technique loop in `MITREMapper.map_to_mitre` for one
catalog entry: if any keyword occurs in the lowered description (the
`break` makes only the first match act, and its effect does not depend
on which keyword matched), record the technique id if new, and its
tactic if present (`if tactic`), non-empty and new. -/
def mitreStep (descLower : List Char) (acc : List String × List String)
    (entry : String × List String) : List String × List String :=
  if entry.2.any fun kw => occursIn kw.toList descLower then
    if entry.1 ∈ acc.1 then acc
    else
      (acc.1 ++ [entry.1],
       match getAssoc TACTIC_MAPPING entry.1 with
       | some tac => if tac ≠ "" ∧ tac ∉ acc.2 then acc.2 ++ [tac] else acc.2
       | none => acc.2)
  else acc

/-- `MITREMapper.map_to_mitre`, restricted to the `techniques` and
`tactics` components of its result (the `details` component is a pure
rendering of `techniques` and is not under study): lower-case the
description, then scan the catalog in declaration order. -/
def map_to_mitre (description : String) : List String × List String :=
  TECHNIQUE_KEYWORDS.foldl (mitreStep (toLowerCL description.toList)) ([], [])

/-! ## Claims about the analyzer's scoring -/

/-- C1: for every technique count `n` and confidence `c ∈ [0,1]`, the
threat score equals `min((50 + min(n*5, 30)) * c, 100)`, lies in
`[0, 100]`, and is `0` whenever the confidence is `0`. -/
theorem C1_threat_score (n : ℕ) (c : ℚ) (h0 : 0 ≤ c) (h1 : c ≤ 1) :
    calculate_threat_score n c = min ((50 + min ((n : ℚ) * 5) 30) * c) 100 ∧
    0 ≤ calculate_threat_score n c ∧
    calculate_threat_score n c ≤ 100 ∧
    (c = 0 → calculate_threat_score n c = 0) := by
  have hcast : ((min (n * 5) 30 : ℕ) : ℚ) = min ((n : ℚ) * 5) 30 := by
    push_cast
    rfl
  have hbase0 : (0 : ℚ) ≤ 50 + ((min (n * 5) 30 : ℕ) : ℚ) := by positivity
  refine ⟨by rw [calculate_threat_score, hcast], ?_, ?_, ?_⟩
  · rw [calculate_threat_score]
    exact le_min (mul_nonneg hbase0 h0) (by norm_num)
  · exact min_le_right _ _
  · intro hc
    rw [calculate_threat_score, hc, mul_zero]
    norm_num

/-- C1 witness at `n = 2`, `c = 1/2`. -/
theorem C1_threat_score_witness :
    (0 : ℚ) ≤ 1 / 2 ∧ (1 / 2 : ℚ) ≤ 1 ∧
    (calculate_threat_score 2 (1 / 2) =
        min ((50 + min ((2 : ℚ) * 5) 30) * (1 / 2)) 100 ∧
      0 ≤ calculate_threat_score 2 (1 / 2) ∧
      calculate_threat_score 2 (1 / 2) ≤ 100 ∧
      ((1 / 2 : ℚ) = 0 → calculate_threat_score 2 (1 / 2) = 0)) :=
  ⟨by norm_num, by norm_num, C1_threat_score 2 (1 / 2) (by norm_num) (by norm_num)⟩

/-- C10: for confidence in `[0,1]` the score never exceeds 80, so the
final `min(·, 100)` clamp never changes the value, and the score reaches
80 exactly when the confidence is 1 and at least 6 techniques matched. -/
theorem C10_score_le_80 (n : ℕ) (c : ℚ) (h0 : 0 ≤ c) (h1 : c ≤ 1) :
    calculate_threat_score n c ≤ 80 ∧
    calculate_threat_score n c = (50 + (min (n * 5) 30 : ℕ) : ℚ) * c ∧
    (calculate_threat_score n c = 80 ↔ c = 1 ∧ 6 ≤ n) := by
  have hm30 : ((min (n * 5) 30 : ℕ) : ℚ) ≤ 30 := by
    exact_mod_cast Nat.cast_le.mpr (min_le_right (n * 5) 30)
  have hm0 : (0 : ℚ) ≤ ((min (n * 5) 30 : ℕ) : ℚ) := by positivity
  have hb80 : (50 + (min (n * 5) 30 : ℕ) : ℚ) ≤ 80 := by linarith
  have hb0 : (0 : ℚ) ≤ (50 + (min (n * 5) 30 : ℕ) : ℚ) := by linarith
  have hle : (50 + (min (n * 5) 30 : ℕ) : ℚ) * c ≤ 80 := by
    calc (50 + (min (n * 5) 30 : ℕ) : ℚ) * c ≤ (50 + (min (n * 5) 30 : ℕ) : ℚ) * 1 :=
          mul_le_mul_of_nonneg_left h1 hb0
      _ ≤ 80 := by linarith
  have heq : calculate_threat_score n c = (50 + (min (n * 5) 30 : ℕ) : ℚ) * c := by
    rw [calculate_threat_score]
    exact min_eq_left (by linarith)
  refine ⟨heq ▸ hle, heq, ?_⟩
  rw [heq]
  constructor
  · intro h80
    have hc1 : c = 1 := by
      by_contra hne
      have hclt : c < 1 := lt_of_le_of_ne h1 hne
      have : (50 + (min (n * 5) 30 : ℕ) : ℚ) * c < 80 := by
        calc (50 + (min (n * 5) 30 : ℕ) : ℚ) * c ≤ 80 * c := by nlinarith
          _ < 80 := by linarith
      linarith [this, h80.ge]
    refine ⟨hc1, ?_⟩
    rw [hc1, mul_one] at h80
    have : ((min (n * 5) 30 : ℕ) : ℚ) = 30 := by linarith
    have hnat : min (n * 5) 30 = 30 := by exact_mod_cast this
    omega
  · rintro ⟨hc1, hn6⟩
    have hnat : min (n * 5) 30 = 30 := by omega
    rw [hc1, mul_one, hnat]
    norm_num

/-- C10 witness at `n = 6`, `c = 1`. -/
theorem C10_score_le_80_witness :
    (0 : ℚ) ≤ 1 ∧ (1 : ℚ) ≤ 1 ∧
    (calculate_threat_score 6 1 ≤ 80 ∧
      calculate_threat_score 6 1 = (50 + (min (6 * 5) 30 : ℕ) : ℚ) * 1 ∧
      (calculate_threat_score 6 1 = 80 ↔ (1 : ℚ) = 1 ∧ 6 ≤ 6)) :=
  ⟨by norm_num, by norm_num, C10_score_le_80 6 1 (by norm_num) (by norm_num)⟩

/-- C2: the severity is a total deterministic function of the score;
on `[0,100]` the five tiers are characterised by inclusive lower bounds
with no gaps or overlaps, and the boundary values behave as specified:
`80 ↦ CRITICAL`, `79.999 ↦ HIGH`. -/
theorem C2_severity_partition (s : ℚ) (h0 : 0 ≤ s) (h1 : s ≤ 100) :
    (get_severity s = "CRITICAL" ↔ 80 ≤ s) ∧
    (get_severity s = "HIGH" ↔ 60 ≤ s ∧ s < 80) ∧
    (get_severity s = "MEDIUM" ↔ 40 ≤ s ∧ s < 60) ∧
    (get_severity s = "LOW" ↔ 20 ≤ s ∧ s < 40) ∧
    (get_severity s = "INFO" ↔ 0 ≤ s ∧ s < 20) ∧
    get_severity (80 : ℚ) = "CRITICAL" ∧
    get_severity (79999 / 1000 : ℚ) = "HIGH" := by
  have hb1 : get_severity (80 : ℚ) = "CRITICAL" := by norm_num [get_severity]
  have hb2 : get_severity (79999 / 1000 : ℚ) = "HIGH" := by norm_num [get_severity]
  refine ⟨?_, ?_, ?_, ?_, ?_, hb1, hb2⟩ <;>
    · rw [get_severity]
      split_ifs with hc hh hm hl <;>
        constructor <;> intro hx <;>
        first
          | (refine ⟨by linarith, by linarith⟩)
          | linarith
          | (exfalso; revert hx; first | decide | (obtain ⟨hx1, hx2⟩ := hx; linarith))
          | rfl

/-- C2 witness at `s = 80`. -/
theorem C2_severity_partition_witness :
    (0 : ℚ) ≤ 80 ∧ (80 : ℚ) ≤ 100 ∧
    ((get_severity 80 = "CRITICAL" ↔ (80 : ℚ) ≤ 80) ∧
      (get_severity 80 = "HIGH" ↔ (60 : ℚ) ≤ 80 ∧ (80 : ℚ) < 80) ∧
      (get_severity 80 = "MEDIUM" ↔ (40 : ℚ) ≤ 80 ∧ (80 : ℚ) < 60) ∧
      (get_severity 80 = "LOW" ↔ (20 : ℚ) ≤ 80 ∧ (80 : ℚ) < 40) ∧
      (get_severity 80 = "INFO" ↔ (0 : ℚ) ≤ 80 ∧ (80 : ℚ) < 20) ∧
      get_severity (80 : ℚ) = "CRITICAL" ∧
      get_severity (79999 / 1000 : ℚ) = "HIGH") :=
  ⟨by norm_num, by norm_num, C2_severity_partition 80 (by norm_num) (by norm_num)⟩

/-! ## Claims about the correlator's similarity function -/

/-- C7: for the three hash IOC types, similarity is 1 exactly on equal
strings and 0 exactly on different strings, and the default 0.3 is never
returned. -/
theorem C7_hash_similarity (a b t : String)
    (h : t = "hash_md5" ∨ t = "hash_sha1" ∨ t = "hash_sha256") :
    (calculate_similarity a b t = 1 ↔ a = b) ∧
    (calculate_similarity a b t = 0 ↔ a ≠ b) ∧
    calculate_similarity a b t ≠ 0.3 := by
  have ht1 : t ≠ "ip" := by rcases h with h | h | h <;> subst h <;> decide
  have ht2 : t ≠ "domain" := by rcases h with h | h | h <;> subst h <;> decide
  rw [calculate_similarity, if_neg ht1, if_neg ht2, if_pos h]
  by_cases hab : a = b
  · rw [if_pos hab]
    exact ⟨iff_of_true (by norm_num) hab,
           iff_of_false (by norm_num) (by simp [hab]), by norm_num⟩
  · rw [if_neg hab]
    exact ⟨iff_of_false (by norm_num) hab,
           iff_of_true (by norm_num) hab, by norm_num⟩

/-- C7 witness at `a = b = "abc"`, `t = "hash_md5"`. -/
theorem C7_hash_similarity_witness :
    (("hash_md5" : String) = "hash_md5" ∨ ("hash_md5" : String) = "hash_sha1" ∨
      ("hash_md5" : String) = "hash_sha256") ∧
    ((calculate_similarity "abc" "abc" "hash_md5" = 1 ↔ ("abc" : String) = "abc") ∧
      (calculate_similarity "abc" "abc" "hash_md5" = 0 ↔ ("abc" : String) ≠ "abc") ∧
      calculate_similarity "abc" "abc" "hash_md5" ≠ 0.3) :=
  ⟨Or.inl rfl, C7_hash_similarity "abc" "abc" "hash_md5" (Or.inl rfl)⟩

/-- C9: similarity is symmetric in its two IOC arguments for every IOC
type: every branch tests a symmetric condition. -/
theorem C9_similarity_symm (a b t : String) :
    calculate_similarity a b t = calculate_similarity b a t := by
  rw [calculate_similarity, calculate_similarity]
  refine if_congr Iff.rfl (if_congr eq_comm rfl (if_congr eq_comm rfl rfl)) ?_
  refine if_congr Iff.rfl (if_congr eq_comm rfl rfl) ?_
  exact if_congr Iff.rfl (if_congr eq_comm rfl rfl) rfl

/-- C4 counterexample: `"1.2"` is a malformed IP (its dot-split has
fewer than 3 parts), yet `similarity("1.2", "1.2", "ip")` returns 0.8,
not the default 0.3: the matching split prefixes hit the /24 branch. -/
theorem C4_counterexample :
    (splitOnDot ("1.2" : String).toList).length < 3 ∧
    calculate_similarity "1.2" "1.2" "ip" = 0.8 := by
  constructor
  · decide
  · rw [calculate_similarity, if_pos rfl, if_pos rfl]

/-- C4 amended: similarity on IOC type `ip` is total (it never raises:
split, slicing and comparison are total, so the `except` is dead code),
and it returns the default 0.3 whenever the length-2 dot-split prefixes
of the two strings differ — which covers malformed IPs sharing no octet
prefix with the other string; a malformed IP whose split prefix happens
to coincide with the other string's is instead scored 0.8 or 0.6. -/
theorem C4_amended (a b : String)
    (h : (splitOnDot a.toList).take 2 ≠ (splitOnDot b.toList).take 2) :
    calculate_similarity a b "ip" = 0.3 := by
  have h3 : (splitOnDot a.toList).take 3 ≠ (splitOnDot b.toList).take 3 := by
    intro e
    apply h
    have e2 := congrArg (List.take 2) e
    simpa [List.take_take] using e2
  rw [calculate_similarity, if_pos rfl, if_neg h3, if_neg h]

/-- C4 witness at `a = "1.2"` (malformed), `b = "9.9.9.9"`. -/
theorem C4_amended_witness :
    (splitOnDot ("1.2" : String).toList).take 2 ≠
      (splitOnDot ("9.9.9.9" : String).toList).take 2 ∧
    calculate_similarity "1.2" "9.9.9.9" "ip" = 0.3 :=
  ⟨by decide, C4_amended "1.2" "9.9.9.9" (by decide)⟩

/-! ## Claims about the correlation store -/

/-- Appending one entry to a bucket raises the statistics total by one. -/
theorem total_threats_dbAppend (db : ThreatDB) (t : String) (e : ThreatEntry) :
    total_threats (dbAppend db t e) = total_threats db + 1 := by
  induction db with
  | nil => simp [dbAppend, total_threats]
  | cons p rest ih =>
    obtain ⟨k, es⟩ := p
    by_cases hk : k = t
    · simp only [dbAppend, if_pos hk, total_threats, List.map_cons, List.sum_cons,
        List.length_append, List.length_singleton]
      omega
    · simp only [dbAppend, if_neg hk, total_threats, List.map_cons, List.sum_cons] at ih ⊢
      omega

/-- Appending one entry to a bucket appends it at the end of that
bucket as read back by `dbGet`. -/
theorem dbGet_dbAppend_same (db : ThreatDB) (t : String) (e : ThreatEntry) :
    dbGet (dbAppend db t e) t = dbGet db t ++ [e] := by
  induction db with
  | nil => simp [dbAppend, dbGet]
  | cons p rest ih =>
    obtain ⟨k, es⟩ := p
    by_cases hk : k = t
    · simp [dbAppend, dbGet, hk]
    · simp [dbAppend, dbGet, hk, ih]

/-- C8: `record` does not deduplicate: two calls with identical
`(ioc, type, metadata)` arguments append two further entries to the
type's bucket, and `statistics().total_threats` grows by exactly 2. -/
theorem C8_record_not_dedup (db : ThreatDB) (ioc t : String)
    (meta now1 now2 : Nat) :
    total_threats (add_threat (add_threat db ioc t meta now1) ioc t meta now2) =
      total_threats db + 2 ∧
    dbGet (add_threat (add_threat db ioc t meta now1) ioc t meta now2) t =
      dbGet db t ++ [⟨ioc, t, meta, now1⟩, ⟨ioc, t, meta, now2⟩] := by
  constructor
  · rw [add_threat, add_threat, total_threats_dbAppend, total_threats_dbAppend]
  · rw [add_threat, add_threat, dbGet_dbAppend_same, dbGet_dbAppend_same,
      List.append_assoc]
    rfl

/-- C3 counterexample: record the value `"1.2.3.4"` under type
`domain`, then query `find_related` for the same value under type `ip`:
the cross-type scan returns the queried value itself as a
`dns_resolution` result, so the claimed invariant fails. -/
theorem C3_counterexample :
    ∃ r ∈ find_related [("domain", [⟨"1.2.3.4", "domain", 0, 0⟩])]
        "1.2.3.4" "ip" 10, r.ioc = "1.2.3.4" := by
  refine ⟨⟨"1.2.3.4", "domain", 0.7, "dns_resolution", 0⟩, ?_, rfl⟩
  simp [find_related, sameTypeResults, find_cross_type_correlations, dbGet,
    List.mergeSort_singleton]

/-- C3 amended: the same-type scan never returns the queried IOC, and
the full result contains the queried value only if it was recorded under
type `domain` and queried as an `ip`; whenever no stored `domain` entry
carries the queried value, no result at all equals the queried IOC. -/
theorem C3_amended (db : ThreatDB) (ioc ioc_type : String) (m : Nat)
    (h : ∀ e ∈ dbGet db "domain", e.ioc ≠ ioc) :
    ∀ r ∈ find_related db ioc ioc_type m, r.ioc ≠ ioc := by
  intro r hr
  have hr1 : r ∈ (sameTypeResults db ioc ioc_type ++
      find_cross_type_correlations db ioc ioc_type).mergeSort simDescLe :=
    (List.take_sublist m _).subset hr
  have hr2 : r ∈ sameTypeResults db ioc ioc_type ++
      find_cross_type_correlations db ioc ioc_type :=
    List.mem_mergeSort.mp hr1
  rcases List.mem_append.mp hr2 with hs | hc
  · rw [sameTypeResults] at hs
    obtain ⟨th, hth, he⟩ := List.mem_filterMap.mp hs
    by_cases hne : th.ioc ≠ ioc
    · rw [if_pos hne] at he
      by_cases hgt : calculate_similarity ioc th.ioc ioc_type > 0.5
      · rw [if_pos hgt] at he
        cases Option.some.inj he
        exact hne
      · rw [if_neg hgt] at he
        exact absurd he (by simp)
    · rw [if_neg hne] at he
      exact absurd he (by simp)
  · rw [find_cross_type_correlations] at hc
    split_ifs at hc with hip
    · obtain ⟨dt, hdt, he⟩ := List.mem_map.mp hc
      have : r.ioc = dt.ioc := by rw [← he]
      rw [this]
      exact h dt hdt
    · exact absurd hc (by simp)

/-- C3 amended witness: a store holding one unrelated `ip` entry and no
`domain` entry satisfies the hypothesis, and the query value never
appears in the results. -/
theorem C3_amended_witness :
    (∀ e ∈ dbGet [("ip", [⟨"9.9.9.9", "ip", 0, 0⟩])] "domain",
      e.ioc ≠ "1.2.3.4") ∧
    ∀ r ∈ find_related [("ip", [⟨"9.9.9.9", "ip", 0, 0⟩])] "1.2.3.4" "ip" 5,
      r.ioc ≠ "1.2.3.4" :=
  ⟨by decide, C3_amended [("ip", [⟨"9.9.9.9", "ip", 0, 0⟩])] "1.2.3.4" "ip" 5
    (by decide)⟩

/-- The sort comparison is transitive. -/
theorem simDescLe_trans (a b c : RelatedThreat) (hab : simDescLe a b = true)
    (hbc : simDescLe b c = true) : simDescLe a c = true := by
  simp only [simDescLe, decide_eq_true_eq] at hab hbc ⊢
  exact le_trans hbc hab

/-- The sort comparison is total. -/
theorem simDescLe_total (a b : RelatedThreat) :
    (simDescLe a b || simDescLe b a) = true := by
  simp only [simDescLe, Bool.or_eq_true, decide_eq_true_eq]
  exact le_total b.similarity a.similarity

/-- C5: `find_related` output is sorted by descending similarity, holds
at most `max_results` elements, and the sort is stable: for every
similarity value, the results carrying it form an initial segment of the
pre-sort concatenation (same-type results in scan order, then cross-type
results in scan order) restricted to that value. -/
theorem C5_find_related_sorted (db : ThreatDB) (ioc ioc_type : String) (m : Nat) :
    (find_related db ioc ioc_type m).Pairwise
      (fun a b => b.similarity ≤ a.similarity) ∧
    (find_related db ioc ioc_type m).length ≤ m ∧
    ∀ q : ℚ, ∃ rest : List RelatedThreat,
      (sameTypeResults db ioc ioc_type ++
          find_cross_type_correlations db ioc ioc_type).filter
        (fun r => decide (r.similarity = q)) =
      (find_related db ioc ioc_type m).filter
        (fun r => decide (r.similarity = q)) ++ rest := by
  refine ⟨?_, ?_, ?_⟩
  · have hs := List.sorted_mergeSort simDescLe_trans simDescLe_total
      (sameTypeResults db ioc ioc_type ++ find_cross_type_correlations db ioc ioc_type)
    rw [find_related]
    exact (List.Pairwise.sublist (List.take_sublist m _) hs).imp
      fun h => by simpa only [simDescLe, decide_eq_true_eq] using h
  · rw [find_related]
    simp only [List.length_take]
    omega
  · intro q
    set p : RelatedThreat → Bool := fun r => decide (r.similarity = q) with hp
    set pre := sameTypeResults db ioc ioc_type ++
      find_cross_type_correlations db ioc ioc_type with hpre
    have hpair : (pre.filter p).Pairwise (fun a b => simDescLe a b = true) := by
      apply List.pairwise_of_forall_mem_list
      intro x hx y hy
      have hx' := (List.mem_filter.mp hx).2
      have hy' := (List.mem_filter.mp hy).2
      rw [hp] at hx' hy'
      simp only [decide_eq_true_eq] at hx' hy'
      simp only [simDescLe, decide_eq_true_eq, hx', hy']
      exact le_refl q
    have h1 : (pre.filter p).Sublist (pre.mergeSort simDescLe) :=
      List.sublist_mergeSort simDescLe_trans simDescLe_total hpair
        (List.filter_sublist pre)
    have h2 : ((pre.filter p).filter p).Sublist
        ((pre.mergeSort simDescLe).filter p) := List.Sublist.filter p h1
    have h3 : (pre.filter p).filter p = pre.filter p := by
      rw [List.filter_filter]
      simp
    have h4 : ((pre.mergeSort simDescLe).filter p).Perm (pre.filter p) :=
      List.Perm.filter p (List.mergeSort_perm pre simDescLe)
    have h5 : pre.filter p = (pre.mergeSort simDescLe).filter p :=
      List.Sublist.eq_of_length (h3 ▸ h2) h4.length_eq.symm
    refine ⟨((pre.mergeSort simDescLe).drop m).filter p, ?_⟩
    calc pre.filter p = (pre.mergeSort simDescLe).filter p := h5
      _ = ((pre.mergeSort simDescLe).take m ++
            (pre.mergeSort simDescLe).drop m).filter p := by
          rw [List.take_append_drop]
      _ = ((pre.mergeSort simDescLe).take m).filter p ++
            ((pre.mergeSort simDescLe).drop m).filter p :=
          List.filter_append _ _
      _ = (find_related db ioc ioc_type m).filter p ++
            ((pre.mergeSort simDescLe).drop m).filter p := by
          rw [find_related, ← hpre]

/-! ## Claims about the MITRE mapper -/

/-- One step of the technique loop keeps both accumulators
duplicate-free: a technique id or a tactic is appended only after an
explicit membership check. -/
theorem mitreStep_nodup (d : List Char) (acc : List String × List String)
    (e : String × List String) (h1 : acc.1.Nodup) (h2 : acc.2.Nodup) :
    (mitreStep d acc e).1.Nodup ∧ (mitreStep d acc e).2.Nodup := by
  rw [mitreStep]
  split_ifs with hkw hmem
  · exact ⟨h1, h2⟩
  · constructor
    · simpa [List.nodup_append] using ⟨h1, hmem⟩
    · cases hga : getAssoc TACTIC_MAPPING e.1 with
      | none => simpa using h2
      | some tac =>
        simp only
        split_ifs with htac
        · simpa [List.nodup_append] using ⟨h2, htac.2⟩
        · exact h2
  · exact ⟨h1, h2⟩

/-- The technique scan keeps both accumulators duplicate-free. -/
theorem mitre_foldl_nodup (d : List Char) (cat : List (String × List String)) :
    ∀ acc : List String × List String, acc.1.Nodup → acc.2.Nodup →
      (cat.foldl (mitreStep d) acc).1.Nodup ∧
        (cat.foldl (mitreStep d) acc).2.Nodup := by
  induction cat with
  | nil =>
    intro acc h1 h2
    exact ⟨h1, h2⟩
  | cons e es ih =>
    intro acc h1 h2
    rw [List.foldl_cons]
    obtain ⟨h1', h2'⟩ := mitreStep_nodup d acc e h1 h2
    exact ih (mitreStep d acc e) h1' h2'

/-- The technique scan only ever appends catalog keys, in catalog
order: what it adds to the first accumulator is a subsequence of the
catalog's key column. -/
theorem mitre_foldl_fst_append (d : List Char) (cat : List (String × List String)) :
    ∀ acc : List String × List String, ∃ s : List String,
      (cat.foldl (mitreStep d) acc).1 = acc.1 ++ s ∧
        s.Sublist (cat.map Prod.fst) := by
  induction cat with
  | nil =>
    intro acc
    exact ⟨[], by simp, by simp⟩
  | cons e es ih =>
    intro acc
    rw [List.foldl_cons, List.map_cons]
    obtain ⟨s, hs, hsub⟩ := ih (mitreStep d acc e)
    by_cases hkw : (e.2.any fun kw => occursIn kw.toList d) = true
    · by_cases hmem : e.1 ∈ acc.1
      · have hstep : (mitreStep d acc e).1 = acc.1 := by
          rw [mitreStep, if_pos hkw, if_pos hmem]
        exact ⟨s, by rw [hs, hstep], hsub.cons e.1⟩
      · have hstep : (mitreStep d acc e).1 = acc.1 ++ [e.1] := by
          rw [mitreStep, if_pos hkw, if_neg hmem]
        refine ⟨e.1 :: s, ?_, hsub.cons₂ e.1⟩
        rw [hs, hstep, List.append_assoc]
        rfl
    · have hstep : (mitreStep d acc e).1 = acc.1 := by
        rw [mitreStep, if_neg hkw]
      exact ⟨s, by rw [hs, hstep], hsub.cons e.1⟩

/-- C6: for every description the technique list and the tactic list
returned by `map_to_mitre` are duplicate-free, and the technique list is
a subsequence of the catalog's keys in declaration order; on
`"powershell was used for lateral movement"` the mapper finds technique
`T1059` and tactic `Execution`. -/
theorem C6_mitre_mapping (d : String) :
    (map_to_mitre d).1.Nodup ∧ (map_to_mitre d).2.Nodup ∧
    (map_to_mitre d).1.Sublist (TECHNIQUE_KEYWORDS.map Prod.fst) ∧
    "T1059" ∈ (map_to_mitre "powershell was used for lateral movement").1 ∧
    "Execution" ∈ (map_to_mitre "powershell was used for lateral movement").2 := by
  obtain ⟨h1, h2⟩ := mitre_foldl_nodup (toLowerCL d.toList) TECHNIQUE_KEYWORDS
    ([], []) List.nodup_nil List.nodup_nil
  obtain ⟨s, hs, hsub⟩ := mitre_foldl_fst_append (toLowerCL d.toList)
    TECHNIQUE_KEYWORDS ([], [])
  rw [map_to_mitre]
  refine ⟨h1, h2, ?_, by decide, by decide⟩
  rw [hs]
  simpa using hsub
